import Mathlib

/-!
# Verification of the url-tracker-tool domain store and network checker

Shallow embedding of the core data model and operations of the repository:
`DomainInfo` / `DomainManager` (domain_manager.py), `DataManager`
(data_manager.py), `NetworkChecker` (network_checker.py) and the constants of
config.py.  URLs are modelled as `List Char`, timestamps as natural-number
ticks passed in as a `now` parameter, Python integers as `Int`, and fallible
persistence as an explicit `saveOk : Bool` parameter.  File contents reaching
`json.loads` are modelled by an inductive recording the parse outcome, which
mirrors the `try`/`except` structure of the code.
-/

namespace UrlTracker

/-! ## Constants from config.py -/

/-- `Config.MAX_DOMAINS` in config.py. -/
def MAX_DOMAINS : Nat := 10

/-- `Config.VERSION` in config.py. -/
def VERSION : String := "1.0.0"

/-- `DEFAULT_DOMAINS` in config.py. -/
def DEFAULT_DOMAINS : List (List Char) :=
  ["https://www.k8w4w.com".toList, "https://www.z6r0j.com".toList]

/-- String-valued class attributes of `Config` in config.py, as read by
`getattr`-style attribute access `Config.<name>`.  config.py defines
`APP_NAME` and `VERSION` (and various non-string attributes); it defines no
attribute named `APP_VERSION`, so looking that name up yields `none`
(an `AttributeError` in Python). -/
def Config.getattr_str (n : String) : Option String :=
  if n == "APP_NAME" then some "域名跟踪器"
  else if n == "VERSION" then some VERSION
  else none

/-- `DOMAIN_VALIDATION_RULES['min_length']` in config.py. -/
def RULES_min_length : Nat := 4

/-- `DOMAIN_VALIDATION_RULES['max_length']` in config.py. -/
def RULES_max_length : Nat := 253

/-- `ERROR_MESSAGES['timeout_error']` in config.py. -/
def MSG_timeout : String := "请求超时，请稍后重试"

/-- `ERROR_MESSAGES['network_error']` in config.py. -/
def MSG_network : String := "网络连接失败，请检查网络设置"

/-! ## URL normalization (DomainInfo._normalize_url) -/

/-- Boolean prefix test on character lists, as Python's `str.startswith`. -/
def starts_with : List Char → List Char → Bool
  | [], _ => true
  | _ :: _, [] => false
  | a :: ps, b :: ls => a == b && starts_with ps ls

/-- Python's `url.rstrip('/')`: remove all trailing `'/'` characters. -/
def rstrip_slash (l : List Char) : List Char :=
  (l.reverse.dropWhile (fun c => c == '/')).reverse

/-- `DomainInfo._normalize_url` in domain_manager.py: empty input is returned
unchanged; otherwise trailing slashes are stripped and `https://` is
prepended when neither `http://` nor `https://` is already a prefix. -/
def normalize_url (url : List Char) : List Char :=
  if url.isEmpty then url
  else
    let u := rstrip_slash url
    if starts_with "http://".toList u || starts_with "https://".toList u then u
    else "https://".toList ++ u

/-! ## Domain entity (class DomainInfo) -/

/-- One tracked URL together with its check history
(class `DomainInfo` in domain_manager.py). -/
structure DomainInfo where
  url : List Char
  added_time : Nat
  last_check : Option Nat
  status : String
  check_count : Int
  error_count : Int
deriving DecidableEq, Repr

/-- `DomainInfo.__init__`: normalizes the url; `added_time or now`;
remaining fields stored as passed. -/
def DomainInfo.make (now : Nat) (url : List Char) (added_time last_check : Option Nat)
    (status : String) (check_count error_count : Int) : DomainInfo :=
  { url := normalize_url url
    added_time := added_time.getD now
    last_check := last_check
    status := status
    check_count := check_count
    error_count := error_count }

/-- `DomainInfo(url)` with all keyword arguments left at their defaults. -/
def DomainInfo.new (now : Nat) (url : List Char) : DomainInfo :=
  DomainInfo.make now url none none "unknown" 0 0

/-- A JSON dictionary holding (possibly absent) entity fields, as consumed by
`DomainInfo.from_dict` / produced by `DomainInfo.to_dict`. -/
structure DomainDict where
  url : Option (List Char)
  added_time : Option Nat
  last_check : Option Nat
  status : Option String
  check_count : Option Int
  error_count : Option Int
deriving DecidableEq, Repr

/-- `DomainInfo.from_dict`: `data.get('url','')`, `data.get('added_time')`,
`data.get('last_check')`, `data.get('status','unknown')`,
`data.get('check_count',0)`, `data.get('error_count',0)`. -/
def DomainInfo.from_dict (now : Nat) (d : DomainDict) : DomainInfo :=
  DomainInfo.make now (d.url.getD []) d.added_time d.last_check
    (d.status.getD "unknown") (d.check_count.getD 0) (d.error_count.getD 0)

/-- `DomainInfo.to_dict`. -/
def DomainInfo.to_dict (d : DomainInfo) : DomainDict :=
  { url := some d.url
    added_time := some d.added_time
    last_check := d.last_check
    status := some d.status
    check_count := some d.check_count
    error_count := some d.error_count }

/-- Python truthiness of an optional string: `None` and `""` are falsy. -/
def truthy_str : Option String → Bool
  | none => false
  | some m => !m.isEmpty

/-- `DomainInfo.update_check_result`: stamps `last_check := now`, increments
`check_count`; on success resets `error_count` and sets `status` active, on
failure increments `error_count` and sets `status` to `error` when a truthy
error message was given, else `inactive`. -/
def DomainInfo.update_check_result (d : DomainInfo) (now : Nat) (is_active : Bool)
    (error_msg : Option String) : DomainInfo :=
  let d1 := { d with last_check := some now, check_count := d.check_count + 1 }
  if is_active then
    { d1 with status := "active", error_count := 0 }
  else
    { d1 with error_count := d1.error_count + 1
              status := if truthy_str error_msg then "error" else "inactive" }

/-! ## Domain validation (DomainManager.validate_domain) -/

/-- Characters at which `urllib.parse.urlparse` terminates the netloc. -/
def netloc_char (c : Char) : Bool := !(c == '/' || c == '?' || c == '#')

/-- The scheme component `urlparse(n).scheme` for the strings produced by
`normalize_url` (which always carry an `http://` or `https://` prefix when
nonempty); unknown shapes parse with an empty scheme. -/
def parse_scheme (n : List Char) : String :=
  if starts_with "https://".toList n then "https"
  else if starts_with "http://".toList n then "http"
  else ""

/-- The netloc component `urlparse(n).netloc` for the same restricted shapes:
everything after the `scheme://` prefix up to the first `/`, `?` or `#`. -/
def parse_netloc (n : List Char) : List Char :=
  if starts_with "https://".toList n then (n.drop 8).takeWhile netloc_char
  else if starts_with "http://".toList n then (n.drop 7).takeWhile netloc_char
  else []

/-- One hostname label of the validation regex
`[a-zA-Z0-9]([a-zA-Z0-9\-]{0,61}[a-zA-Z0-9])?`: nonempty, at most 63
characters, first and last alphanumeric, interior alphanumeric or hyphen. -/
def valid_label : List Char → Bool
  | [] => false
  | c :: rest =>
    c.isAlphanum && decide (rest.length ≤ 62) &&
      rest.dropLast.all (fun x => x.isAlphanum || x == '-') &&
      (match rest.getLast? with
       | some d => d.isAlphanum
       | none => true)

/-- Split a netloc at `.` separators (keeping empty labels), as the
`(\.label)*` structure of the validation regex. -/
def split_labels : List Char → List (List Char)
  | [] => [[]]
  | c :: rest =>
    if c == '.' then [] :: split_labels rest
    else
      match split_labels rest with
      | [] => [[c]]
      | h :: t => (c :: h) :: t

/-- `DomainManager.validate_domain`: rejects empty input, normalizes, checks
length bounds, scheme, nonempty netloc, the label regex, and the
required-TLD dot; returns the boolean part of the `(ok, message)` pair. -/
def validate_domain (url : List Char) : Bool :=
  if url.isEmpty then false
  else
    let n := normalize_url url
    if n.length < RULES_min_length then false
    else if RULES_max_length < n.length then false
    else
      let scheme := parse_scheme n
      let netloc := parse_netloc n
      if !(scheme == "http" || scheme == "https") then false
      else if netloc.isEmpty then false
      else if !((split_labels netloc).all valid_label) then false
      else if !(netloc.contains '.') then false
      else true

/-! ## Domain store (class DomainManager)

The store is the `self.domains` list.  Persistence success is an explicit
`saveOk` parameter standing for the boolean returned by
`data_manager.save_domains`; `now` stands for `datetime.now()`. -/

/-- `DomainManager.find_domain`: first entity whose url equals the normalized
input (`DomainInfo(url).url`). -/
def find_domain (s : List DomainInfo) (url : List Char) : Option DomainInfo :=
  s.find? (fun d => d.url == normalize_url url)

/-- Python's `list.remove` of the first entity carrying the given
(already-normalized) url. -/
def remove_first (nurl : List Char) : List DomainInfo → List DomainInfo
  | [] => []
  | d :: rest => if d.url == nurl then rest else d :: remove_first nurl rest

/-- Replace the first entity carrying the given (already-normalized) url by
its image under `f`, leaving everything else in place (the in-place mutation
of the found object in `update_domain_status`). -/
def update_first (nurl : List Char) (f : DomainInfo → DomainInfo) :
    List DomainInfo → List DomainInfo
  | [] => []
  | d :: rest =>
    if d.url == nurl then f d :: rest else d :: update_first nurl f rest

/-- `DomainManager.add_domain`: validate; if the normalized url is already
present, refresh that entity's `added_time` and move it to the front,
otherwise insert a fresh entity at the front; truncate to `max_domains`;
persist (the list mutation is kept even when persisting fails). -/
def add_domain (max_domains now : Nat) (saveOk : Bool) (s : List DomainInfo)
    (url : List Char) : Bool × List DomainInfo :=
  if !validate_domain url then (false, s)
  else
    let nd := DomainInfo.new now url
    let s1 :=
      match find_domain s nd.url with
      | some existing =>
        { existing with added_time := now } :: remove_first (normalize_url nd.url) s
      | none => nd :: s
    let s2 := if max_domains < s1.length then s1.take max_domains else s1
    (saveOk, s2)

/-- Fold a sequence of `add_domain` calls over the store, keeping the
resulting list (each call's boolean result is discarded, as callers do). -/
def add_many (max_domains now : Nat) (saveOk : Bool) (s : List DomainInfo)
    (urls : List (List Char)) : List DomainInfo :=
  urls.foldl (fun st u => (add_domain max_domains now saveOk st u).2) s

/-- `DomainManager.remove_domain`: look up the entity; remove it; on persist
failure re-`append` it (at the end of the list) and report failure. -/
def remove_domain (saveOk : Bool) (s : List DomainInfo) (url : List Char) :
    Bool × List DomainInfo :=
  match find_domain s url with
  | none => (false, s)
  | some d =>
    let s1 := remove_first (normalize_url url) s
    if saveOk then (true, s1) else (false, s1 ++ [d])

/-- `DomainManager.update_domain_status`: mutate the found entity in place via
`update_check_result` and persist; report `False` when the url is absent or
persisting fails. -/
def update_domain_status (now : Nat) (saveOk : Bool) (s : List DomainInfo)
    (url : List Char) (is_active : Bool) (error_msg : Option String) :
    Bool × List DomainInfo :=
  match find_domain s url with
  | none => (false, s)
  | some _ =>
    (saveOk,
     update_first (normalize_url url)
       (fun d => d.update_check_result now is_active error_msg) s)

/-! ## Persistence layer (DataManager) and store loading -/

/-- Outcome of reading the persisted domains file through
`open`/`json.loads` in `DataManager.load_domains`: the file may be missing,
may fail to parse (`json.JSONDecodeError` / `UnicodeDecodeError`), or may
parse to a list of entity dictionaries. -/
inductive FileContent where
  | missing
  | unparseable
  | parsed (entries : List DomainDict)
deriving DecidableEq, Repr

/-- `DataManager.load_domains`: a missing file yields `[]`; a parse failure is
caught and yields `[]`; otherwise the parsed entries are returned. -/
def DataManager.load_domains : FileContent → List DomainDict
  | .missing => []
  | .unparseable => []
  | .parsed entries => entries

/-- `DomainManager._initialize_default_domains`: one fresh entity per url in
`DEFAULT_DOMAINS`, appended to the (empty) store. -/
def init_default_domains (now : Nat) : List DomainInfo :=
  DEFAULT_DOMAINS.map (DomainInfo.new now)

/-- `DomainManager.load_domains`: take the data layer's list; when it is
non-empty build the store from it via `from_dict`, otherwise fall back to
`_initialize_default_domains`; return `True` (the boolean result) together
with the resulting store. -/
def DomainManager.load_domains (now : Nat) (fc : FileContent) :
    Bool × List DomainInfo :=
  let data := DataManager.load_domains fc
  if data.isEmpty then (true, init_default_domains now)
  else (true, data.map (DomainInfo.from_dict now))

/-! ## Export and import (DomainManager.export_domains / import_domains) -/

/-- The JSON document `{export_time, app_version, domains}` that
`export_domains` tries to build. -/
structure ExportDoc where
  export_time : Nat
  app_version : String
  domains : List DomainDict
deriving DecidableEq, Repr

/-- `DomainManager.export_domains`: building the document evaluates
`Config.APP_VERSION`; when that attribute lookup fails the `AttributeError`
is caught by the surrounding `except` and the method returns `False` without
having opened or written the target file (`none` in the second component). -/
def export_domains (now : Nat) (s : List DomainInfo) : Bool × Option ExportDoc :=
  match Config.getattr_str "APP_VERSION" with
  | some v => (true, some ⟨now, v, s.map DomainInfo.to_dict⟩)
  | none => (false, none)

/-- Outcome of reading an import file in `import_domains`: missing file or
JSON parse failure (both caught as exceptions), a parsed document lacking the
`domains` key, or a parsed document carrying entity dictionaries. -/
inductive ImportFile where
  | missing
  | unparseable
  | no_domains_key
  | doc (entries : List DomainDict)
deriving DecidableEq, Repr

/-- `DomainManager.import_domains`: on a readable document with a `domains`
key, append each entry whose url is not already present, truncate to
`max_domains`, persist, and report success; every failure path reports
failure with the store untouched. -/
def import_domains (max_domains now : Nat) (s : List DomainInfo) :
    ImportFile → Bool × List DomainInfo
  | .missing => (false, s)
  | .unparseable => (false, s)
  | .no_domains_key => (false, s)
  | .doc entries =>
    let s1 := entries.foldl
      (fun acc dd =>
        let d := DomainInfo.from_dict now dd
        match find_domain acc d.url with
        | some _ => acc
        | none => acc ++ [d])
      s
    let s2 := if max_domains < s1.length then s1.take max_domains else s1
    (true, s2)

/-- `export_domains(path)` followed by `import_domains(path)` into an empty
store: when export produced no file, import sees a missing file. -/
def export_then_import (max_domains now : Nat) (s : List DomainInfo) :
    Bool × List DomainInfo :=
  match export_domains now s with
  | (_, some d) => import_domains max_domains now [] (ImportFile.doc d.domains)
  | (_, none) => import_domains max_domains now [] ImportFile.missing

/-! ## Network checker (class NetworkChecker) -/

/-- `NetworkChecker.cache_duration` (seconds). -/
def cache_duration : Nat := 300

/-- The checker's mutable state: `self.check_cache`, mapping a url to the
cached boolean result and the timestamp at which it was stored. -/
structure CheckerState where
  check_cache : List (List Char × (Bool × Nat))
deriving DecidableEq, Repr

/-- Python dict assignment `self.check_cache[url] = v`: overwrite the entry
for the key if present, otherwise append it. -/
def cache_insert (url : List Char) (v : Bool × Nat) :
    List (List Char × (Bool × Nat)) → List (List Char × (Bool × Nat))
  | [] => [(url, v)]
  | (k, w) :: rest =>
    if k == url then (url, v) :: rest else (k, w) :: cache_insert url v rest

/-- Python dict read `self.check_cache[url]` / membership test. -/
def cache_lookup (url : List Char) :
    List (List Char × (Bool × Nat)) → Option (Bool × Nat)
  | [] => none
  | (k, w) :: rest => if k == url then some w else cache_lookup url rest

/-- `NetworkChecker._is_cache_valid`: the key is present and its timestamp is
younger than `cache_duration`. -/
def is_cache_valid (st : CheckerState) (now : Nat) (url : List Char) : Bool :=
  match cache_lookup url st.check_cache with
  | none => false
  | some (_, ts) => decide (now - ts < cache_duration)

/-- `NetworkChecker._get_cached_result`: the cached boolean when the cache is
valid for this url, else `None`. -/
def get_cached_result (st : CheckerState) (now : Nat) (url : List Char) :
    Option Bool :=
  if is_cache_valid st now url then
    match cache_lookup url st.check_cache with
    | some (b, _) => some b
    | none => none
  else none

/-- `NetworkChecker._cache_result`. -/
def cache_result (st : CheckerState) (now : Nat) (url : List Char) (b : Bool) :
    CheckerState :=
  ⟨cache_insert url (b, now) st.check_cache⟩

/-- What the network would answer for one probe: an HTTP response (with an
optional redirect target), or one of the exception classes caught by
`check_domain_simple`. -/
inductive ProbeOutcome where
  | response (status_code : Nat) (redirected : Option (List Char))
  | timeout
  | conn_error
  | request_exc (msg : String)
  | other_exc (msg : String)
deriving DecidableEq, Repr

/-- Result of one `check_domain_simple` call: the returned triple
`(ok, message, final_url)`, the checker state afterwards, and how many
network probes the call issued. -/
structure CheckResult where
  ok : Bool
  message : String
  final_url : Option (List Char)
  state : CheckerState
  probes : Nat
deriving DecidableEq, Repr

/-- `NetworkChecker.check_domain_simple`: consult the cache first (a hit
issues no probe and leaves the state unchanged); on a miss issue one HEAD
probe, derive `ok` (`status_code < 400` on a response, `False` on every
caught exception), cache the boolean, and return the corresponding
message/final-url triple. -/
def check_domain_simple (st : CheckerState) (now : Nat) (url : List Char)
    (oc : ProbeOutcome) : CheckResult :=
  match get_cached_result st now url with
  | some b => ⟨b, "缓存结果", none, st, 0⟩
  | none =>
    match oc with
    | .response code redirected =>
      let is_success := decide (code < 400)
      let final_url := redirected.getD url
      ⟨is_success, "HTTP " ++ toString code, some final_url,
        cache_result st now url is_success, 1⟩
    | .timeout => ⟨false, MSG_timeout, none, cache_result st now url false, 1⟩
    | .conn_error => ⟨false, MSG_network, none, cache_result st now url false, 1⟩
    | .request_exc m =>
      ⟨false, "请求异常: " ++ m, none, cache_result st now url false, 1⟩
    | .other_exc m =>
      ⟨false, "未知错误: " ++ m, none, cache_result st now url false, 1⟩

/-! ## Helper lemmas about url normalization -/

theorem starts_with_iff : ∀ (p l : List Char), starts_with p l = true ↔ ∃ t, l = p ++ t
  | [], l => by simp [starts_with]
  | a :: ps, [] => by simp [starts_with]
  | a :: ps, b :: ls => by
    simp only [starts_with, Bool.and_eq_true, beq_iff_eq, starts_with_iff ps ls,
      List.cons_append, List.cons.injEq]
    constructor
    · rintro ⟨rfl, t, rfl⟩
      exact ⟨t, rfl, rfl⟩
    · rintro ⟨t, rfl, rfl⟩
      exact ⟨rfl, t, rfl⟩

theorem rstrip_slash_decomp (u : List Char) :
    ∃ sl, (∀ c ∈ sl, c = '/') ∧ u = rstrip_slash u ++ sl := by
  refine ⟨(u.reverse.takeWhile (fun c => c == '/')).reverse, ?_, ?_⟩
  · intro c hc
    rw [List.mem_reverse] at hc
    simpa [beq_iff_eq] using List.mem_takeWhile_imp hc
  · conv_lhs =>
      rw [← u.reverse_reverse,
        ← List.takeWhile_append_dropWhile (fun c => c == '/') u.reverse,
        List.reverse_append]
    rfl

theorem starts_with_rstrip (p u : List Char)
    (h : starts_with p (rstrip_slash u) = true) : starts_with p u = true := by
  obtain ⟨t, ht⟩ := (starts_with_iff p _).mp h
  obtain ⟨sl, _, hu⟩ := rstrip_slash_decomp u
  exact (starts_with_iff p u).mpr ⟨t ++ sl, by rw [hu, ht, List.append_assoc]⟩

theorem head_dropWhile_false {q : Char → Bool} :
    ∀ (l : List Char) (a : Char), (List.dropWhile q l).head? = some a → q a = false
  | [], a => by simp [List.dropWhile]
  | b :: t, a => by
    rw [List.dropWhile]
    cases hb : q b with
    | true => simpa using head_dropWhile_false t a
    | false =>
      intro h
      cases h
      exact hb

theorem dropWhile_dropWhile (q : Char → Bool) (l : List Char) :
    List.dropWhile q (List.dropWhile q l) = List.dropWhile q l := by
  cases h : List.dropWhile q l with
  | nil => simp
  | cons a t =>
    have ha : q a = false := head_dropWhile_false l a (by rw [h]; rfl)
    rw [List.dropWhile_cons_of_neg (by simp [ha])]

theorem rstrip_slash_idem (u : List Char) :
    rstrip_slash (rstrip_slash u) = rstrip_slash u := by
  unfold rstrip_slash
  rw [List.reverse_reverse, dropWhile_dropWhile]

theorem rstrip_slash_getLast (u : List Char) (h : rstrip_slash u ≠ []) :
    ∃ c, (rstrip_slash u).getLast? = some c ∧ (c == '/') = false := by
  rw [rstrip_slash, List.getLast?_reverse]
  cases hh : (u.reverse.dropWhile (fun c => c == '/')).head? with
  | none =>
    rw [rstrip_slash] at h
    rcases List.head?_eq_none_iff.mp hh with heq
    simp [heq] at h
  | some c => exact ⟨c, rfl, head_dropWhile_false u.reverse c hh⟩

theorem rstrip_slash_append (p rest : List Char)
    (h : rest.any (fun c => !(c == '/')) = true) :
    rstrip_slash (p ++ rest) = p ++ rstrip_slash rest := by
  have hne : (rest.reverse.dropWhile (fun c => c == '/')).isEmpty = false := by
    rw [List.isEmpty_eq_false, Ne, List.dropWhile_eq_nil_iff]
    obtain ⟨c, hc, hq⟩ := List.any_eq_true.mp h
    intro hall
    exact absurd (hall c (List.mem_reverse.mpr hc)) (by simpa using hq)
  rw [rstrip_slash, List.reverse_append, List.dropWhile_append, hne]
  simp [rstrip_slash]

/-- `normalize_url` on a nonempty url whose stripped form carries neither
scheme: the `https://` prefix is added. -/
theorem normalize_url_no_scheme (u : List Char) (hne : u ≠ [])
    (h1 : ¬starts_with "http://".toList u = true)
    (h2 : ¬starts_with "https://".toList u = true) :
    normalize_url u = "https://".toList ++ rstrip_slash u := by
  rw [normalize_url, if_neg (by simp [List.isEmpty_iff, hne])]
  have c1 : starts_with "http://".toList (rstrip_slash u) = false :=
    Bool.eq_false_iff.mpr fun hc => h1 (starts_with_rstrip _ u hc)
  have c2 : starts_with "https://".toList (rstrip_slash u) = false :=
    Bool.eq_false_iff.mpr fun hc => h2 (starts_with_rstrip _ u hc)
  simp only [c1, c2, Bool.or_self, Bool.false_eq_true, if_false]

/-- `normalize_url` on a url carrying an `http://` or `https://` scheme
followed by at least one non-slash character: only trailing slashes are
stripped. -/
theorem normalize_url_with_scheme (u rest : List Char)
    (hu : u = "http://".toList ++ rest ∨ u = "https://".toList ++ rest)
    (hr : rest.any (fun c => !(c == '/')) = true) :
    normalize_url u = rstrip_slash u := by
  have hne : ¬u.isEmpty = true := by
    rcases hu with rfl | rfl <;> simp [List.isEmpty_iff]
  rcases hu with rfl | rfl
  · rw [normalize_url, if_neg hne]
    have hrw := rstrip_slash_append "http://".toList rest hr
    have hs : starts_with "http://".toList
        (rstrip_slash ("http://".toList ++ rest)) = true :=
      (starts_with_iff _ _).mpr ⟨rstrip_slash rest, hrw⟩
    simp only [hs, Bool.true_or, if_true]
  · rw [normalize_url, if_neg hne]
    have hrw := rstrip_slash_append "https://".toList rest hr
    have hs : starts_with "https://".toList
        (rstrip_slash ("https://".toList ++ rest)) = true :=
      (starts_with_iff _ _).mpr ⟨rstrip_slash rest, hrw⟩
    simp only [hs, Bool.or_true, if_true]

/-- A successful validation implies the url was nonempty and the parsed
netloc of its normalization nonempty. -/
theorem validate_domain_facts (u : List Char) (hv : validate_domain u = true) :
    u ≠ [] ∧ (parse_netloc (normalize_url u)).isEmpty = false := by
  rw [validate_domain] at hv
  split at hv
  · exact absurd hv (by simp)
  · rename_i hemp
    constructor
    · simpa [List.isEmpty_iff] using hemp
    · simp only at hv
      split at hv
      · exact absurd hv (by simp)
      · split at hv
        · exact absurd hv (by simp)
        · split at hv
          · exact absurd hv (by simp)
          · split at hv
            · exact absurd hv (by simp)
            · rename_i hnet
              simpa using hnet

/-- Every nonempty url normalizes to something carrying an `http://` or
`https://` scheme. -/
theorem normalize_url_starts (u : List Char) (hne : u ≠ []) :
    starts_with "http://".toList (normalize_url u) = true ∨
      starts_with "https://".toList (normalize_url u) = true := by
  rw [normalize_url, if_neg (by simp [List.isEmpty_iff, hne])]
  by_cases hcond : (starts_with "http://".toList (rstrip_slash u) ||
      starts_with "https://".toList (rstrip_slash u)) = true
  · rw [if_pos hcond]
    exact Bool.or_eq_true_iff.mp hcond
  · rw [if_neg hcond]
    exact Or.inr ((starts_with_iff _ _).mpr ⟨rstrip_slash u, rfl⟩)

/-- `normalize_url` fixes any url that is nonempty, free of trailing
slashes, and already scheme-prefixed. -/
theorem normalize_url_of_fixed (n : List Char) (hne : n ≠ [])
    (hfix : rstrip_slash n = n)
    (hs : starts_with "http://".toList n = true ∨
      starts_with "https://".toList n = true) :
    normalize_url n = n := by
  have hc : (starts_with "http://".toList n ||
      starts_with "https://".toList n) = true := by
    rcases hs with h | h
    · rw [h]
      rfl
    · rw [h, Bool.or_true]
  rw [normalize_url, if_neg (by simp [List.isEmpty_iff, hne]), hfix, if_pos hc]

/-- On urls accepted by `validate_domain`, normalization is idempotent, so
the re-normalization inside `find_domain` is harmless. -/
theorem normalize_url_idem (u : List Char) (hv : validate_domain u = true) :
    normalize_url (normalize_url u) = normalize_url u := by
  obtain ⟨hne, hnet⟩ := validate_domain_facts u hv
  have hemp : ¬u.isEmpty = true := by simp [List.isEmpty_iff, hne]
  by_cases hv0 : rstrip_slash u = []
  · exfalso
    have hn : normalize_url u = "https://".toList := by
      rw [normalize_url, if_neg hemp, hv0]
      rfl
    rw [hn] at hnet
    simp [parse_netloc, starts_with] at hnet
  · -- The stripped url is nonempty, hence ends in a non-slash character.
    obtain ⟨c, hlast, hc⟩ := rstrip_slash_getLast u hv0
    have hany : (rstrip_slash u).any (fun c => !(c == '/')) = true :=
      List.any_eq_true.mpr ⟨c, List.mem_of_mem_getLast? hlast, by simp [hc]⟩
    have hfix : rstrip_slash (rstrip_slash u) = rstrip_slash u := rstrip_slash_idem u
    by_cases hcond : (starts_with "http://".toList (rstrip_slash u) ||
        starts_with "https://".toList (rstrip_slash u)) = true
    · have hn : normalize_url u = rstrip_slash u := by
        rw [normalize_url, if_neg hemp, if_pos hcond]
      rw [hn]
      exact normalize_url_of_fixed _ hv0 hfix (Bool.or_eq_true_iff.mp hcond)
    · have hn : normalize_url u = "https://".toList ++ rstrip_slash u := by
        rw [normalize_url, if_neg hemp, if_neg hcond]
      rw [hn]
      refine normalize_url_of_fixed _ (by simp) ?_ (Or.inr ?_)
      · rw [rstrip_slash_append _ _ hany, hfix]
      · exact (starts_with_iff _ _).mpr ⟨rstrip_slash u, rfl⟩

/-! ## Helper lemmas about the store operations -/

/-- A successful `find_domain` splits the store at the first entity with the
searched (normalized) url and determines `remove_first` and `update_first`. -/
theorem find_domain_decomp :
    ∀ (s : List DomainInfo) (url : List Char) (d : DomainInfo),
      find_domain s url = some d →
      ∃ l1 l2, s = l1 ++ d :: l2 ∧
        (∀ e ∈ l1, (e.url == normalize_url url) = false) ∧
        d.url = normalize_url url ∧
        remove_first (normalize_url url) s = l1 ++ l2 ∧
        ∀ f, update_first (normalize_url url) f s = l1 ++ f d :: l2
  | [], url, d => by simp [find_domain]
  | a :: t, url, d => by
    intro h
    rw [find_domain, List.find?_cons] at h
    cases hp : (a.url == normalize_url url) with
    | true =>
      rw [hp] at h
      cases h
      refine ⟨[], t, rfl, by simp, beq_iff_eq.mp hp, ?_, ?_⟩
      · rw [remove_first, if_pos hp]
        rfl
      · intro f
        rw [update_first, if_pos hp]
        rfl
    | false =>
      rw [hp] at h
      obtain ⟨l1, l2, hs, hl1, hd, hrem, hupd⟩ := find_domain_decomp t url d h
      refine ⟨a :: l1, l2, by rw [List.cons_append, hs], ?_, hd, ?_, ?_⟩
      · intro e he
        rcases List.mem_cons.mp he with rfl | he'
        · exact hp
        · exact hl1 e he'
      · rw [remove_first, if_neg (by simp [hp]), hrem]
        rfl
      · intro f
        rw [update_first, if_neg (by simp [hp]), hupd f]
        rfl

/-- Setting at the junction index of a split list. -/
theorem set_append_len {α : Type} :
    ∀ (l1 l2 : List α) (a b : α), (l1 ++ a :: l2).set l1.length b = l1 ++ b :: l2
  | [], l2, a, b => rfl
  | c :: t, l2, a, b => by
    simp only [List.cons_append, List.length_cons, List.set_cons_succ]
    rw [set_append_len t l2 a b]

/-- Truncation absorbs an earlier truncation of the appended tail. -/
theorem take_append_take {α : Type} (A B : List α) (n : Nat) :
    (A ++ B.take n).take n = (A ++ B).take n := by
  rw [List.take_append_eq_append_take, List.take_append_eq_append_take,
    List.take_take, Nat.min_eq_left (Nat.sub_le n A.length)]

/-- A fresh, valid url is inserted at the front and the result truncated. -/
theorem add_domain_fresh (max_domains now : Nat) (saveOk : Bool)
    (s : List DomainInfo) (url : List Char)
    (hv : validate_domain url = true) (hfind : find_domain s url = none) :
    (add_domain max_domains now saveOk s url).2 =
      (DomainInfo.new now url :: s).take max_domains := by
  have hfind2 : find_domain s (normalize_url url) = none := by
    rw [find_domain, normalize_url_idem url hv, ← find_domain, hfind]
  simp only [add_domain, hv, Bool.not_true, Bool.false_eq_true, if_false]
  have hnd : (DomainInfo.new now url).url = normalize_url url := rfl
  rw [hnd, hfind2]
  split
  · rfl
  · rename_i hgt
    rw [List.take_of_length_le (Nat.le_of_not_lt hgt)]

/-- `add_domain` never grows the store beyond the cap. -/
theorem add_domain_length (max_domains now : Nat) (saveOk : Bool)
    (s : List DomainInfo) (url : List Char) (h : s.length ≤ max_domains) :
    ((add_domain max_domains now saveOk s url).2).length ≤ max_domains := by
  rw [add_domain]
  split
  · exact h
  · simp only
    split
    · rename_i hgt
      rw [List.length_take]
      exact inf_le_left
    · rename_i hgt
      exact Nat.le_of_not_lt hgt

/-- `add_many` never grows the store beyond the cap. -/
theorem add_many_length (max_domains now : Nat) (saveOk : Bool) :
    ∀ (urls : List (List Char)) (s : List DomainInfo),
      s.length ≤ max_domains →
      (add_many max_domains now saveOk s urls).length ≤ max_domains
  | [], s => fun h => h
  | u :: rest, s => fun h => by
    rw [add_many, List.foldl_cons]
    exact add_many_length max_domains now saveOk rest _
      (add_domain_length max_domains now saveOk s u h)

/-- Characterization of a whole sequence of fresh adds: the store holds the
added entities newest-first, truncated at the cap, on top of the original
contents. -/
theorem add_many_fresh (max_domains now : Nat) (saveOk : Bool) :
    ∀ (urls : List (List Char)) (s : List DomainInfo),
      (∀ u ∈ urls, validate_domain u = true) →
      urls.Pairwise (fun a b => normalize_url a ≠ normalize_url b) →
      (∀ u ∈ urls, ∀ d ∈ s, d.url ≠ normalize_url u) →
      s.length ≤ max_domains →
      add_many max_domains now saveOk s urls =
        ((urls.map (DomainInfo.new now)).reverse ++ s).take max_domains
  | [], s => by
    intro _ _ _ hlen
    simpa [add_many] using (List.take_of_length_le hlen).symm
  | u :: rest, s => by
    intro hval hpw hdis hlen
    have hv : validate_domain u = true := hval u (by simp)
    have hfind : find_domain s u = none := by
      rw [find_domain, List.find?_eq_none]
      intro d hd
      simp only [beq_iff_eq]
      exact hdis u (by simp) d hd
    have hstep := add_domain_fresh max_domains now saveOk s u hv hfind
    have hrec := add_many_fresh max_domains now saveOk rest
      ((DomainInfo.new now u :: s).take max_domains)
      (fun u' hu' => hval u' (by simp [hu']))
      (List.pairwise_cons.mp hpw).2
      ?_ ?_
    · rw [add_many, List.foldl_cons, hstep, ← add_many, hrec, take_append_take,
        List.map_cons, List.reverse_cons, List.append_assoc, List.cons_append,
        List.nil_append]
    · intro u' hu' d hd
      rcases List.mem_cons.mp (List.mem_of_mem_take hd) with rfl | hds
      · show normalize_url u ≠ normalize_url u'
        exact (List.pairwise_cons.mp hpw).1 u' hu'
      · exact hdis u' (by simp [hu']) d hds
    · rw [List.length_take]
      exact inf_le_left

/-- The counter invariant claimed for domain entities. -/
def counters_ok (d : DomainInfo) : Prop :=
  0 ≤ d.error_count ∧ d.error_count ≤ d.check_count

instance (d : DomainInfo) : Decidable (counters_ok d) := by
  unfold counters_ok; infer_instance

/-! ## Helper lemmas about the result cache -/

theorem lookup_cache_insert (url : List Char) (v : Bool × Nat) :
    ∀ c, cache_lookup url (cache_insert url v c) = some v
  | [] => by simp [cache_insert, cache_lookup]
  | (k, w) :: rest => by
    rw [cache_insert]
    split
    · rw [cache_lookup, if_pos (by simp)]
    · rename_i hk
      rw [cache_lookup, if_neg hk]
      exact lookup_cache_insert url v rest

theorem get_cached_result_some (st : CheckerState) (now : Nat) (url : List Char)
    (b : Bool) (h : get_cached_result st now url = some b) :
    ∃ ts, cache_lookup url st.check_cache = some (b, ts) ∧
      now - ts < cache_duration := by
  rw [get_cached_result] at h
  by_cases hvalid : is_cache_valid st now url = true
  · rw [if_pos hvalid] at h
    rw [is_cache_valid] at hvalid
    cases hl : cache_lookup url st.check_cache with
    | none =>
      rw [hl] at h
      exact absurd h (by simp)
    | some p =>
      obtain ⟨b', ts⟩ := p
      rw [hl] at h
      have hb : b' = b := Option.some.inj h
      subst hb
      rw [hl] at hvalid
      exact ⟨ts, rfl, of_decide_eq_true hvalid⟩
  · rw [if_neg hvalid] at h
    cases h

theorem check_domain_simple_hit (st : CheckerState) (now : Nat) (url : List Char)
    (oc : ProbeOutcome) (b : Bool) (h : get_cached_result st now url = some b) :
    check_domain_simple st now url oc = ⟨b, "缓存结果", none, st, 0⟩ := by
  rw [check_domain_simple.eq_def, h]

theorem check_domain_simple_miss (st : CheckerState) (now : Nat) (url : List Char)
    (oc : ProbeOutcome) (h : get_cached_result st now url = none) :
    (check_domain_simple st now url oc).state =
      cache_result st now url (check_domain_simple st now url oc).ok ∧
    (check_domain_simple st now url oc).probes = 1 := by
  rw [check_domain_simple.eq_def, h]
  cases oc <;> exact ⟨rfl, rfl⟩

theorem get_cached_result_after_insert (st : CheckerState) (now1 now2 : Nat)
    (url : List Char) (b : Bool) (h : now2 - now1 < cache_duration) :
    get_cached_result (cache_result st now1 url b) now2 url = some b := by
  have hl : cache_lookup url (cache_result st now1 url b).check_cache =
      some (b, now1) := lookup_cache_insert url (b, now1) st.check_cache
  rw [get_cached_result, if_pos (by rw [is_cache_valid, hl]; exact decide_eq_true h), hl]

end UrlTracker

namespace UrlTracker

/-! ## Claim theorems -/

/-- C8: `check_domain_simple` leaves the boolean it returns in the cache,
freshly stamped, on every call and every outcome (success, HTTP failure,
timeout, connection error, request exception, unknown exception); hence when
a url is not validly cached, a first call issues exactly one probe and a
second call within the cache TTL issues none and returns the first call's
boolean — at most one probe in total. -/
theorem check_simple_caches_and_short_circuits :
    (∀ (st : CheckerState) (now : Nat) (url : List Char) (oc : ProbeOutcome),
      ∃ t, cache_lookup url (check_domain_simple st now url oc).state.check_cache =
          some ((check_domain_simple st now url oc).ok, t) ∧
        now - t < cache_duration)
  ∧ (∀ (st : CheckerState) (now1 now2 : Nat) (url : List Char)
      (oc1 oc2 : ProbeOutcome),
      get_cached_result st now1 url = none →
      now2 - now1 < cache_duration →
      (check_domain_simple st now1 url oc1).probes +
        (check_domain_simple (check_domain_simple st now1 url oc1).state
          now2 url oc2).probes = 1 ∧
      (check_domain_simple (check_domain_simple st now1 url oc1).state
          now2 url oc2).ok = (check_domain_simple st now1 url oc1).ok) := by
  constructor
  · intro st now url oc
    cases hc : get_cached_result st now url with
    | some b =>
      rw [check_domain_simple_hit st now url oc b hc]
      obtain ⟨ts, hl, hts⟩ := get_cached_result_some st now url b hc
      exact ⟨ts, hl, hts⟩
    | none =>
      obtain ⟨hst, _⟩ := check_domain_simple_miss st now url oc hc
      rw [hst]
      refine ⟨now, lookup_cache_insert url _ st.check_cache, ?_⟩
      rw [Nat.sub_self]
      decide
  · intro st now1 now2 url oc1 oc2 h1 h2
    obtain ⟨hst, hpr⟩ := check_domain_simple_miss st now1 url oc1 h1
    have hcached : get_cached_result (check_domain_simple st now1 url oc1).state
        now2 url = some (check_domain_simple st now1 url oc1).ok := by
      rw [hst]
      exact get_cached_result_after_insert st now1 now2 url _ h2
    rw [check_domain_simple_hit _ now2 url oc2 _ hcached, hpr]
    exact ⟨rfl, rfl⟩

/-- C8 witness: concrete two-call scenario on an empty cache — a timeout
probe at time 0 followed by a successful response offered at time 299. -/
theorem check_simple_caches_witness :
    (∃ t, cache_lookup "https://a.com".toList (check_domain_simple ⟨[]⟩ 0
        "https://a.com".toList ProbeOutcome.timeout).state.check_cache =
          some ((check_domain_simple ⟨[]⟩ 0 "https://a.com".toList
            ProbeOutcome.timeout).ok, t) ∧
        0 - t < cache_duration)
  ∧ (get_cached_result ⟨[]⟩ 0 "https://a.com".toList = none ∧
      299 - 0 < cache_duration ∧
      (check_domain_simple ⟨[]⟩ 0 "https://a.com".toList ProbeOutcome.timeout).probes +
        (check_domain_simple
          (check_domain_simple ⟨[]⟩ 0 "https://a.com".toList ProbeOutcome.timeout).state
          299 "https://a.com".toList (ProbeOutcome.response 200 none)).probes = 1 ∧
      (check_domain_simple
          (check_domain_simple ⟨[]⟩ 0 "https://a.com".toList ProbeOutcome.timeout).state
          299 "https://a.com".toList (ProbeOutcome.response 200 none)).ok =
        (check_domain_simple ⟨[]⟩ 0 "https://a.com".toList ProbeOutcome.timeout).ok) := by
  constructor
  · exact check_simple_caches_and_short_circuits.1 ⟨[]⟩ 0 _ ProbeOutcome.timeout
  · refine ⟨by decide, by decide, ?_⟩
    exact check_simple_caches_and_short_circuits.2 ⟨[]⟩ 0 299 _
      ProbeOutcome.timeout (ProbeOutcome.response 200 none) (by decide) (by decide)

/-- C1 (export/import round trip): the claim fails on the code — building the
export document evaluates `Config.APP_VERSION`, an attribute config.py never
defines (it defines `VERSION`), so `export_domains` always catches an
`AttributeError`, returns failure and writes no file; the subsequent import
of the never-written file fails and the empty target store stays empty, for
every store contents. -/
theorem export_always_fails_round_trip :
    ∀ (max_domains now : Nat) (s : List DomainInfo),
      export_domains now s = (false, none) ∧
      export_then_import max_domains now s = (false, []) := by
  intro max_domains now s
  have he : export_domains now s = (false, none) := rfl
  exact ⟨he, by rw [export_then_import, he]; rfl⟩

/-- C2 counterexample: loading with an unparseable domains file does not
leave the store empty — the Domain Store initializes itself with the two
built-in default domains. -/
theorem load_unparseable_not_empty :
    (DomainManager.load_domains 0 FileContent.unparseable).2 ≠ [] ∧
    (DomainManager.load_domains 0 FileContent.unparseable).2.length = 2 := by
  constructor <;> decide

/-- C2 (amended): loading with a missing or unparseable domains file never
raises (the model is total and returns `true`); the data layer indeed
yields an empty list, but the Domain Store then falls back to the two
built-in default domains instead of staying empty. -/
theorem load_missing_or_corrupt_gives_defaults :
    ∀ now : Nat,
      DataManager.load_domains FileContent.missing = [] ∧
      DataManager.load_domains FileContent.unparseable = [] ∧
      DomainManager.load_domains now FileContent.missing =
        (true, init_default_domains now) ∧
      DomainManager.load_domains now FileContent.unparseable =
        (true, init_default_domains now) ∧
      (init_default_domains now).length = 2 :=
  fun _ => ⟨rfl, rfl, rfl, rfl, rfl⟩

end UrlTracker

namespace UrlTracker

/-- C3 counterexample: with the store `[a, b]` and a failing persist, removing
`a` returns failure but leaves the store as `[b, a]` — the same entities in a
different order, contradicting "same entities in the same order". -/
theorem remove_rollback_reorders :
    (remove_domain false
        [DomainInfo.new 0 "a.com".toList, DomainInfo.new 0 "b.com".toList]
        "a.com".toList).1 = false ∧
    (remove_domain false
        [DomainInfo.new 0 "a.com".toList, DomainInfo.new 0 "b.com".toList]
        "a.com".toList).2 ≠
      [DomainInfo.new 0 "a.com".toList, DomainInfo.new 0 "b.com".toList] := by
  constructor <;> decide

/-- C3 (amended): when the url is present and persisting fails, `remove`
returns failure and restores the removed entity by appending it at the end of
the list: the store afterwards is a permutation of the original (same
entities), but the original order is recovered only when the removed entity
was last. -/
theorem remove_rollback_appends :
    ∀ (s : List DomainInfo) (url : List Char) (d : DomainInfo),
      find_domain s url = some d →
      (remove_domain false s url).1 = false ∧
      (remove_domain false s url).2 =
        remove_first (normalize_url url) s ++ [d] ∧
      (remove_domain false s url).2.Perm s := by
  intro s url d h
  obtain ⟨l1, l2, hs, _, _, hrem, _⟩ := find_domain_decomp s url d h
  have h1 : remove_domain false s url =
      (false, remove_first (normalize_url url) s ++ [d]) := by
    rw [remove_domain.eq_def, h]
    rfl
  refine ⟨by rw [h1], by rw [h1], ?_⟩
  rw [h1, hrem, hs, List.append_assoc]
  exact List.Perm.append_left l1 (List.perm_append_singleton d l2)

/-- C3 witness: concrete failing removal of `a.com` from `[b, a]`. -/
theorem remove_rollback_appends_witness :
    find_domain [DomainInfo.new 0 "b.com".toList, DomainInfo.new 0 "a.com".toList]
        "a.com".toList = some (DomainInfo.new 0 "a.com".toList) ∧
    (remove_domain false
        [DomainInfo.new 0 "b.com".toList, DomainInfo.new 0 "a.com".toList]
        "a.com".toList).1 = false ∧
    (remove_domain false
        [DomainInfo.new 0 "b.com".toList, DomainInfo.new 0 "a.com".toList]
        "a.com".toList).2 =
      remove_first (normalize_url "a.com".toList)
        [DomainInfo.new 0 "b.com".toList, DomainInfo.new 0 "a.com".toList] ++
        [DomainInfo.new 0 "a.com".toList] ∧
    (remove_domain false
        [DomainInfo.new 0 "b.com".toList, DomainInfo.new 0 "a.com".toList]
        "a.com".toList).2.Perm
      [DomainInfo.new 0 "b.com".toList, DomainInfo.new 0 "a.com".toList] :=
  ⟨by decide, remove_rollback_appends _ _ (DomainInfo.new 0 "a.com".toList) (by decide)⟩

/-- C4 counterexample: `from_dict` performs no validation, so a dictionary
carrying `check_count = 0` and `error_count = 5` yields an entity violating
`check_count >= error_count >= 0`. -/
theorem from_dict_breaks_counter_invariant :
    ¬counters_ok (DomainInfo.from_dict 0
      ⟨some "https://a.com".toList, none, none, none, some 0, some 5⟩) := by
  decide

/-- C4 (amended): the invariant `check_count >= error_count >= 0` holds for
entities created on add, is preserved by `update_check_result` under every
check outcome, and is preserved by `from_dict` exactly when the dictionary's
own (defaulted) counters already satisfy it; an arbitrary dictionary can
violate it. -/
theorem counter_invariant_preserved :
    (∀ (now : Nat) (url : List Char), counters_ok (DomainInfo.new now url))
  ∧ (∀ (d : DomainInfo) (now : Nat) (b : Bool) (msg : Option String),
      counters_ok d → counters_ok (d.update_check_result now b msg))
  ∧ (∀ (now : Nat) (dd : DomainDict),
      0 ≤ dd.error_count.getD 0 →
      dd.error_count.getD 0 ≤ dd.check_count.getD 0 →
      counters_ok (DomainInfo.from_dict now dd)) := by
  refine ⟨?_, ?_, ?_⟩
  · intro now url
    exact ⟨le_refl 0, le_refl 0⟩
  · rintro d now b msg ⟨h0, h1⟩
    cases b with
    | true =>
      have hrw : d.update_check_result now true msg =
          { d with last_check := some now, check_count := d.check_count + 1,
                   status := "active", error_count := 0 } := rfl
      rw [hrw]
      refine ⟨le_refl 0, ?_⟩
      show (0 : Int) ≤ d.check_count + 1
      omega
    | false =>
      have hrw : d.update_check_result now false msg =
          { d with last_check := some now, check_count := d.check_count + 1,
                   error_count := d.error_count + 1,
                   status := if truthy_str msg then "error" else "inactive" } := rfl
      rw [hrw]
      constructor
      · show (0 : Int) ≤ d.error_count + 1
        omega
      · show d.error_count + 1 ≤ d.check_count + 1
        omega
  · intro now dd h0 h1
    exact ⟨h0, h1⟩

/-- C4 witness: the invariant at a fresh entity, after a concrete failed
check, and through `from_dict` of a well-formed dictionary. -/
theorem counter_invariant_witness :
    counters_ok (DomainInfo.new 0 "a.com".toList) ∧
    counters_ok ((DomainInfo.new 0 "a.com".toList).update_check_result 3 false
      (some "boom")) ∧
    counters_ok (DomainInfo.from_dict 0
      ⟨some "https://a.com".toList, none, none, none, some 7, some 2⟩) :=
  ⟨counter_invariant_preserved.1 0 _,
   counter_invariant_preserved.2.1 _ 3 false (some "boom") (by decide),
   counter_invariant_preserved.2.2 0 _ (by decide) (by decide)⟩

/-- C9: `normalize_url` prepends `https://` and strips trailing slashes on
nonempty scheme-less input, only strips trailing slashes when an `http://` or
`https://` scheme (followed by a nonempty remainder) is present, and returns
empty input unchanged. -/
theorem normalize_url_spec :
    (∀ u : List Char, u ≠ [] →
      ¬starts_with "http://".toList u = true →
      ¬starts_with "https://".toList u = true →
      normalize_url u = "https://".toList ++ rstrip_slash u)
  ∧ (∀ u rest : List Char,
      (u = "http://".toList ++ rest ∨ u = "https://".toList ++ rest) →
      rest.any (fun c => !(c == '/')) = true →
      normalize_url u = rstrip_slash u)
  ∧ normalize_url [] = [] :=
  ⟨normalize_url_no_scheme, normalize_url_with_scheme, rfl⟩

/-- C9 witness: a scheme-less url with a trailing slash and a scheme-carrying
url with doubled trailing slashes. -/
theorem normalize_url_spec_witness :
    normalize_url "a.com/".toList =
      "https://".toList ++ rstrip_slash "a.com/".toList ∧
    normalize_url "http://b.com//".toList = rstrip_slash "http://b.com//".toList :=
  ⟨normalize_url_spec.1 _ (by decide) (by decide) (by decide),
   normalize_url_spec.2.1 _ "b.com//".toList (Or.inl (by decide)) (by decide)⟩

end UrlTracker

namespace UrlTracker

/-- C6: when the url is present, `update_domain_status(url, true, msg)`
replaces exactly that entity (at its position) by its `update_check_result`
image, which has `error_count = 0`, `status = "active"`, `last_check` set to
the current time and `check_count` incremented by one — regardless of the
prior error count. -/
theorem update_status_success_spec :
    ∀ (now : Nat) (saveOk : Bool) (s : List DomainInfo) (url : List Char)
      (msg : Option String) (d : DomainInfo),
      find_domain s url = some d →
      (d.update_check_result now true msg).error_count = 0 ∧
      (d.update_check_result now true msg).status = "active" ∧
      (d.update_check_result now true msg).last_check = some now ∧
      (d.update_check_result now true msg).check_count = d.check_count + 1 ∧
      ∃ j, s[j]? = some d ∧
        (update_domain_status now saveOk s url true msg).2 =
          s.set j (d.update_check_result now true msg) := by
  intro now saveOk s url msg d h
  obtain ⟨l1, l2, hs, _, _, _, hupd⟩ := find_domain_decomp s url d h
  refine ⟨rfl, rfl, rfl, rfl, l1.length, ?_, ?_⟩
  · rw [hs, List.getElem?_append_right (Nat.le_refl _), Nat.sub_self,
      List.getElem?_cons_zero]
  · have hu : (update_domain_status now saveOk s url true msg).2 =
        update_first (normalize_url url)
          (fun d => d.update_check_result now true msg) s := by
      rw [update_domain_status.eq_def, h]
    rw [hu, hupd (fun d => d.update_check_result now true msg), hs, set_append_len]

/-- C6 witness: a concrete success update of `a.com` in a one-entity store
whose entity carries a prior error count of 4. -/
theorem update_status_success_witness :
    find_domain [DomainInfo.make 0 "a.com".toList none none "error" 9 4]
        "a.com".toList = some (DomainInfo.make 0 "a.com".toList none none "error" 9 4) ∧
    (((DomainInfo.make 0 "a.com".toList none none "error" 9 4).update_check_result
        5 true none).error_count = 0 ∧
      ((DomainInfo.make 0 "a.com".toList none none "error" 9 4).update_check_result
        5 true none).status = "active" ∧
      ((DomainInfo.make 0 "a.com".toList none none "error" 9 4).update_check_result
        5 true none).last_check = some 5 ∧
      ((DomainInfo.make 0 "a.com".toList none none "error" 9 4).update_check_result
        5 true none).check_count =
        (DomainInfo.make 0 "a.com".toList none none "error" 9 4).check_count + 1 ∧
      ∃ j, [DomainInfo.make 0 "a.com".toList none none "error" 9 4][j]? =
          some (DomainInfo.make 0 "a.com".toList none none "error" 9 4) ∧
        (update_domain_status 5 true
            [DomainInfo.make 0 "a.com".toList none none "error" 9 4]
            "a.com".toList true none).2 =
          [DomainInfo.make 0 "a.com".toList none none "error" 9 4].set j
            ((DomainInfo.make 0 "a.com".toList none none "error" 9 4).update_check_result
              5 true none)) :=
  ⟨by decide, update_status_success_spec 5 true _ _ none _ (by decide)⟩

/-- C7: when the url is present, `update_domain_status(url, false, msg)`
replaces exactly that entity by its image with `error_count` incremented by
one and `status` set to `error` for a truthy message and `inactive`
otherwise, while every other position of the store is left unchanged. -/
theorem update_status_failure_spec :
    ∀ (now : Nat) (saveOk : Bool) (s : List DomainInfo) (url : List Char)
      (msg : Option String) (d : DomainInfo),
      find_domain s url = some d →
      (d.update_check_result now false msg).error_count = d.error_count + 1 ∧
      (d.update_check_result now false msg).status =
        (if truthy_str msg then "error" else "inactive") ∧
      ∃ j, s[j]? = some d ∧
        (update_domain_status now saveOk s url false msg).2 =
          s.set j (d.update_check_result now false msg) ∧
        ((update_domain_status now saveOk s url false msg).2).length = s.length ∧
        ∀ i, i ≠ j →
          ((update_domain_status now saveOk s url false msg).2)[i]? = s[i]? := by
  intro now saveOk s url msg d h
  obtain ⟨l1, l2, hs, _, _, _, hupd⟩ := find_domain_decomp s url d h
  have hu : (update_domain_status now saveOk s url false msg).2 =
      update_first (normalize_url url)
        (fun d => d.update_check_result now false msg) s := by
    rw [update_domain_status.eq_def, h]
  have hset : (update_domain_status now saveOk s url false msg).2 =
      s.set l1.length (d.update_check_result now false msg) := by
    rw [hu, hupd (fun d => d.update_check_result now false msg), hs, set_append_len]
  refine ⟨rfl, rfl, l1.length, ?_, hset, ?_, ?_⟩
  · rw [hs, List.getElem?_append_right (Nat.le_refl _), Nat.sub_self,
      List.getElem?_cons_zero]
  · rw [hset, List.length_set]
  · intro i hij
    rw [hset]
    exact List.getElem?_set_ne (fun hji => hij hji.symm)

/-- C7 witness: a concrete failure update (with a truthy message) of `b.com`
in a two-entity store, checking the untouched neighbour at index 0. -/
theorem update_status_failure_witness :
    find_domain [DomainInfo.new 0 "a.com".toList,
        DomainInfo.make 0 "b.com".toList none none "active" 3 1]
        "b.com".toList =
      some (DomainInfo.make 0 "b.com".toList none none "active" 3 1) ∧
    (((DomainInfo.make 0 "b.com".toList none none "active" 3 1).update_check_result
        7 false (some "boom")).error_count =
      (DomainInfo.make 0 "b.com".toList none none "active" 3 1).error_count + 1 ∧
    ((DomainInfo.make 0 "b.com".toList none none "active" 3 1).update_check_result
        7 false (some "boom")).status =
      (if truthy_str (some "boom") then "error" else "inactive") ∧
    ∃ j, [DomainInfo.new 0 "a.com".toList,
        DomainInfo.make 0 "b.com".toList none none "active" 3 1][j]? =
        some (DomainInfo.make 0 "b.com".toList none none "active" 3 1) ∧
      (update_domain_status 7 true
          [DomainInfo.new 0 "a.com".toList,
            DomainInfo.make 0 "b.com".toList none none "active" 3 1]
          "b.com".toList false (some "boom")).2 =
        [DomainInfo.new 0 "a.com".toList,
          DomainInfo.make 0 "b.com".toList none none "active" 3 1].set j
          ((DomainInfo.make 0 "b.com".toList none none "active" 3 1).update_check_result
            7 false (some "boom")) ∧
      ((update_domain_status 7 true
          [DomainInfo.new 0 "a.com".toList,
            DomainInfo.make 0 "b.com".toList none none "active" 3 1]
          "b.com".toList false (some "boom")).2).length =
        [DomainInfo.new 0 "a.com".toList,
          DomainInfo.make 0 "b.com".toList none none "active" 3 1].length ∧
      ∀ i, i ≠ j →
        ((update_domain_status 7 true
            [DomainInfo.new 0 "a.com".toList,
              DomainInfo.make 0 "b.com".toList none none "active" 3 1]
            "b.com".toList false (some "boom")).2)[i]? =
          [DomainInfo.new 0 "a.com".toList,
            DomainInfo.make 0 "b.com".toList none none "active" 3 1][i]?) :=
  ⟨by decide, update_status_failure_spec 7 true _ _ (some "boom") _ (by decide)⟩

end UrlTracker

namespace UrlTracker

/-- C10: adding a url already present in a (within-cap) store re-uses the
existing entity: it is moved to index 0 with only its `added_time` refreshed
— url, status, counters and `last_check` carried over unchanged — no entity
is created, and the store size is unchanged. -/
theorem add_existing_refreshes :
    ∀ (max_domains now : Nat) (saveOk : Bool) (s : List DomainInfo)
      (url : List Char) (e : DomainInfo),
      validate_domain url = true →
      find_domain s url = some e →
      s.length ≤ max_domains →
      (add_domain max_domains now saveOk s url).2 =
        { e with added_time := now } :: remove_first (normalize_url url) s ∧
      ((add_domain max_domains now saveOk s url).2).length = s.length ∧
      ({ e with added_time := now }).url = e.url ∧
      ({ e with added_time := now }).added_time = now ∧
      ({ e with added_time := now }).status = e.status ∧
      ({ e with added_time := now }).check_count = e.check_count ∧
      ({ e with added_time := now }).error_count = e.error_count ∧
      ({ e with added_time := now }).last_check = e.last_check := by
  intro max_domains now saveOk s url e hv hfind hlen
  obtain ⟨l1, l2, hs, _, _, hrem, _⟩ := find_domain_decomp s url e hfind
  have hfind2 : find_domain s (normalize_url url) = some e := by
    rw [find_domain, normalize_url_idem url hv, ← find_domain, hfind]
  have hlen1 : ({ e with added_time := now } ::
      remove_first (normalize_url url) s).length = s.length := by
    rw [hrem, hs]
    simp [List.length_append]
    omega
  have hmain : (add_domain max_domains now saveOk s url).2 =
      { e with added_time := now } :: remove_first (normalize_url url) s := by
    simp only [add_domain, hv, Bool.not_true, Bool.false_eq_true, if_false]
    have hnd : (DomainInfo.new now url).url = normalize_url url := rfl
    rw [hnd, hfind2, normalize_url_idem url hv]
    simp only
    rw [if_neg (by rw [hlen1]; omega)]
  exact ⟨hmain, by rw [hmain, hlen1], rfl, rfl, rfl, rfl, rfl, rfl⟩

/-- C10 witness: re-adding `b.com` (present with history, at index 1 of a
two-entity store) at time 9. -/
theorem add_existing_refreshes_witness :
    validate_domain "b.com".toList = true ∧
    find_domain [DomainInfo.new 0 "a.com".toList,
        DomainInfo.make 0 "b.com".toList none (some 4) "active" 6 2]
        "b.com".toList =
      some (DomainInfo.make 0 "b.com".toList none (some 4) "active" 6 2) ∧
    (add_domain 10 9 true
        [DomainInfo.new 0 "a.com".toList,
          DomainInfo.make 0 "b.com".toList none (some 4) "active" 6 2]
        "b.com".toList).2 =
      { DomainInfo.make 0 "b.com".toList none (some 4) "active" 6 2 with
          added_time := 9 } ::
        remove_first (normalize_url "b.com".toList)
          [DomainInfo.new 0 "a.com".toList,
            DomainInfo.make 0 "b.com".toList none (some 4) "active" 6 2] ∧
    ((add_domain 10 9 true
        [DomainInfo.new 0 "a.com".toList,
          DomainInfo.make 0 "b.com".toList none (some 4) "active" 6 2]
        "b.com".toList).2).length =
      [DomainInfo.new 0 "a.com".toList,
        DomainInfo.make 0 "b.com".toList none (some 4) "active" 6 2].length := by
  have h := add_existing_refreshes 10 9 true
    [DomainInfo.new 0 "a.com".toList,
      DomainInfo.make 0 "b.com".toList none (some 4) "active" 6 2]
    "b.com".toList
    (DomainInfo.make 0 "b.com".toList none (some 4) "active" 6 2)
    (by decide) (by decide) (by decide)
  exact ⟨by decide, by decide, h.1, h.2.1⟩

/-- C5: (a) starting within the cap, no sequence of adds ever pushes the
store beyond `max_domains`; (b) a sequence of fresh valid adds leaves the
most-recently-added entities at the front (newest first), truncated at the
cap; (c) adding a fresh valid url to a store exactly at a positive cap keeps
the size at the cap, places the new entity at index 0 and drops exactly the
last (oldest) entry. -/
theorem add_cap_and_order_spec :
    (∀ (max_domains now : Nat) (saveOk : Bool) (s : List DomainInfo)
      (urls : List (List Char)),
      s.length ≤ max_domains →
      (add_many max_domains now saveOk s urls).length ≤ max_domains)
  ∧ (∀ (max_domains now : Nat) (saveOk : Bool) (urls : List (List Char)),
      (∀ u ∈ urls, validate_domain u = true) →
      urls.Pairwise (fun a b => normalize_url a ≠ normalize_url b) →
      add_many max_domains now saveOk [] urls =
        ((urls.map (DomainInfo.new now)).reverse).take max_domains)
  ∧ (∀ (max_domains now : Nat) (saveOk : Bool) (s : List DomainInfo)
      (u : List Char),
      validate_domain u = true →
      find_domain s u = none →
      s.length = max_domains →
      0 < max_domains →
      (add_domain max_domains now saveOk s u).2 =
        DomainInfo.new now u :: s.dropLast ∧
      ((add_domain max_domains now saveOk s u).2).length = max_domains) := by
  refine ⟨?_, ?_, ?_⟩
  · intro max_domains now saveOk s urls h
    exact add_many_length max_domains now saveOk urls s h
  · intro max_domains now saveOk urls hval hpw
    have h := add_many_fresh max_domains now saveOk urls [] hval hpw
      (by intro u hu d hd; cases hd) (by simp)
    rw [h, List.append_nil]
  · intro max_domains now saveOk s u hv hfind hlen hpos
    have h := add_domain_fresh max_domains now saveOk s u hv hfind
    constructor
    · rw [h]
      obtain ⟨m, rfl⟩ : ∃ m, max_domains = m + 1 :=
        ⟨max_domains - 1, (Nat.succ_pred_eq_of_pos hpos).symm⟩
      rw [List.take_succ_cons, List.dropLast_eq_take, hlen]
      simp
    · rw [h, List.length_take, List.length_cons, hlen]
      exact inf_eq_left.mpr (Nat.le_succ _)

/-- C5 witness: cap 2 — three fresh adds from empty stay within the cap and
keep the newest in front; one fresh add to a full two-entity store drops the
oldest and keeps the size at 2. -/
theorem add_cap_and_order_witness :
    (add_many 2 0 true [] ["a.com".toList, "b.com".toList, "c.com".toList]).length
        ≤ 2 ∧
    add_many 2 0 true [] ["a.com".toList, "b.com".toList, "c.com".toList] =
      ((["a.com".toList, "b.com".toList, "c.com".toList].map
        (DomainInfo.new 0)).reverse).take 2 ∧
    (add_domain 2 5 true
        [DomainInfo.new 0 "b.com".toList, DomainInfo.new 0 "c.com".toList]
        "a.com".toList).2 =
      DomainInfo.new 5 "a.com".toList ::
        [DomainInfo.new 0 "b.com".toList,
          DomainInfo.new 0 "c.com".toList].dropLast ∧
    ((add_domain 2 5 true
        [DomainInfo.new 0 "b.com".toList, DomainInfo.new 0 "c.com".toList]
        "a.com".toList).2).length = 2 :=
  ⟨add_cap_and_order_spec.1 2 0 true [] _ (by decide),
   add_cap_and_order_spec.2.1 2 0 true _ (by decide) (by decide),
   (add_cap_and_order_spec.2.2 2 5 true _ _ (by decide) (by decide) (by decide)
     (by decide)).1,
   (add_cap_and_order_spec.2.2 2 5 true _ _ (by decide) (by decide) (by decide)
     (by decide)).2⟩

end UrlTracker
